import Mathlib

/-!
Verification of the parsing and ordering code in `src/sys/kernel/mod.rs` of the
procfs crate: `Version::from_str`, the `Ord` implementation for `Version`, and
`SemaphoreLimits::from_str`.  Strings are modelled as `List Char`, the Rust
bounded unsigned integers as `Nat` with an explicit bound (`2^8`, `2^64`),
and fallible parsing as `Except String`.
-/

deriving instance DecidableEq for Except

namespace ProcfsKernel

/-- Rust `char::is_ascii_whitespace`: space, horizontal tab, line feed,
form feed (U+000C), carriage return. -/
def isAsciiWhitespace (c : Char) : Bool :=
  c = ' ' || c = '\t' || c = '\n' || c = Char.ofNat 12 || c = '\r'

/-- Accumulator-based worker for `splitWs`; `acc` holds the characters of the
current token in reverse order. -/
def splitWsAux : List Char → List Char → List (List Char)
  | [], acc => if acc = [] then [] else [acc.reverse]
  | c :: rest, acc =>
    if isAsciiWhitespace c then
      if acc = [] then splitWsAux rest [] else acc.reverse :: splitWsAux rest []
    else splitWsAux rest (c :: acc)

/-- Rust `str::split_ascii_whitespace`, collected into a list: the maximal
non-whitespace runs of the input, in order.  Empty tokens never occur, so
contiguous whitespace runs act as one separator and leading/trailing
whitespace is ignored. -/
def splitWs (s : List Char) : List (List Char) := splitWsAux s []

/-- Rust `str::split('.')`, collected into a list.  Yields the (possibly
empty) substrings between the dots; on the empty string it yields one empty
piece, so the result is never the empty list. -/
def splitOnDot : List Char → List (List Char)
  | [] => [[]]
  | c :: rest =>
    if c = '.' then [] :: splitOnDot rest
    else
      match splitOnDot rest with
      | [] => [[c]]
      | t :: ts => (c :: t) :: ts

/-- Numeric value of an ASCII digit character. -/
def digitVal (c : Char) : Nat := c.toNat - 48

/-- Value of a string of ASCII decimal digits, most significant first. -/
def decimalValue (l : List Char) : Nat :=
  l.foldl (fun acc c => acc * 10 + digitVal c) 0

/-- Rust `uN::from_str` (i.e. `from_str_radix` at radix 10 for an unsigned
type): an optional leading `+` sign followed by one or more ASCII decimal
digits, rejecting the empty string, any other character, and any value that
overflows the target width.  `bound` is `2^8` for `u8` and `2^64` for `u64`;
for a digits-only string the accumulation overflows somewhere iff the final
value is `≥ bound`, so the result is the value exactly when it is `< bound`. -/
def parseUnsigned (bound : Nat) (s : List Char) : Option Nat :=
  let digits : List Char :=
    match s with
    | c :: rest => if c = '+' then rest else s
    | [] => s
  if digits = [] then none
  else if digits.all Char.isDigit then
    if decimalValue digits < bound then some (decimalValue digits) else none
  else none

/-- Rust `Iterator::next` applied `i + 1` times to a fresh iterator over
`toks`, with `ok_or(msg)`: the `i`-th token, or the error `msg` when the
iterator is exhausted. -/
def tokenAt (toks : List (List Char)) (i : Nat) (msg : String) :
    Except String (List Char) :=
  match toks.get? i with
  | some t => Except.ok t
  | none => Except.error msg

/-- Rust `token.parse().map_err(|_| msg)` for an unsigned target type of the
given bound. -/
def parseField (bound : Nat) (t : List Char) (msg : String) :
    Except String Nat :=
  match parseUnsigned bound t with
  | some v => Except.ok v
  | none => Except.error msg

/-- The `Version` struct: a kernel version in major.minor.patch form.
Fields are `u8` in Rust; here `Nat`, produced by `parseUnsigned (2^8)`. -/
structure Version where
  major : Nat
  minor : Nat
  patch : Nat
deriving DecidableEq

/-- The character predicate kept by the truncation step of
`Version::from_str`: Rust truncates at the first character `c` with
`c != '.' && !c.is_ascii_digit()`. -/
def keepVersionChar (c : Char) : Bool := c = '.' || c.isDigit

/-- `Version::from_str`: truncate the input at the first character that is
neither `.` nor an ASCII digit, split the prefix on `.`, take the first three
pieces (erroring on the missing component otherwise), and parse each piece as
a `u8` (erroring on the failing component otherwise). -/
def Version.fromStr (s : List Char) : Except String Version :=
  let kernel := s.takeWhile keepVersionChar
  let pieces := splitOnDot kernel
  Except.bind (tokenAt pieces 0 "Missing major version component") fun majorS =>
  Except.bind (tokenAt pieces 1 "Missing minor version component") fun minorS =>
  Except.bind (tokenAt pieces 2 "Missing patch version component") fun patchS =>
  Except.bind (parseField (2 ^ 8) majorS "Failed to parse major version") fun major =>
  Except.bind (parseField (2 ^ 8) minorS "Failed to parse minor version") fun minor =>
  Except.bind (parseField (2 ^ 8) patchS "Failed to parse patch version") fun patch =>
  Except.ok { major := major, minor := minor, patch := patch }

/-- Rust `u8::cmp` (specialised three-way comparison on the natural order). -/
def cmpNat (a b : Nat) : Ordering :=
  if a < b then Ordering.lt else if a = b then Ordering.eq else Ordering.gt

/-- `impl cmp::Ord for Version`: compare `major`; on ties compare `minor`;
on ties compare `patch`. -/
def Version.cmp (x y : Version) : Ordering :=
  match cmpNat x.major y.major with
  | Ordering.eq =>
    match cmpNat x.minor y.minor with
    | Ordering.eq => cmpNat x.patch y.patch
    | o => o
  | o => o

/-- The `SemaphoreLimits` struct: the four values of `/proc/sys/kernel/sem`.
Fields are `u64` in Rust; here `Nat`, produced by `parseUnsigned (2^64)`. -/
structure SemaphoreLimits where
  semmsl : Nat
  semmns : Nat
  semopm : Nat
  semmni : Nat
deriving DecidableEq

/-- `SemaphoreLimits::from_str`: split the input on ASCII whitespace, draw
four tokens from the iterator (erroring on the first missing one), then parse
the four tokens as `u64` left to right (erroring on the first failing one). -/
def SemaphoreLimits.fromStr (s : List Char) : Except String SemaphoreLimits :=
  let toks := splitWs s
  Except.bind (tokenAt toks 0 "Missing SEMMSL") fun semmslS =>
  Except.bind (tokenAt toks 1 "Missing SEMMNS") fun semmnsS =>
  Except.bind (tokenAt toks 2 "Missing SEMOPM") fun semopmS =>
  Except.bind (tokenAt toks 3 "Missing SEMMNI") fun semmniS =>
  Except.bind (parseField (2 ^ 64) semmslS "Failed to parse SEMMSL") fun semmsl =>
  Except.bind (parseField (2 ^ 64) semmnsS "Failed to parse SEMMNS") fun semmns =>
  Except.bind (parseField (2 ^ 64) semopmS "Failed to parse SEMOPM") fun semopm =>
  Except.bind (parseField (2 ^ 64) semmniS "Failed to parse SEMMNI") fun semmni =>
  Except.ok { semmsl := semmsl, semmns := semmns, semopm := semopm, semmni := semmni }

/-- The error message of the `ok_or("Missing …")` chain of the source in
`SemaphoreLimits::from_str` for the token at position `i` (zero-based). -/
def missingMsg : Nat → String
  | 0 => "Missing SEMMSL"
  | 1 => "Missing SEMMNS"
  | 2 => "Missing SEMOPM"
  | _ => "Missing SEMMNI"

/-- Decimal rendering of a natural number, most significant digit first. -/
def natDigits (n : Nat) : List Char :=
  if h : n < 10 then [Char.ofNat (48 + n)]
  else natDigits (n / 10) ++ [Char.ofNat (48 + n % 10)]
decreasing_by
  exact Nat.div_lt_self (Nat.pos_of_ne_zero (by omega)) (by omega)

/-- Modelled from the spec: the canonical text form `"major.minor.patch"` of
a version value.  The repository provides no formatter for
`Version` under `src`; the round-trip property of the spec names this form. -/
def Version.format (v : Version) : List Char :=
  natDigits v.major ++ '.' :: (natDigits v.minor ++ '.' :: natDigits v.patch)

/-- Modelled from the spec: the canonical text form of a semaphore-limits
record, four space-separated decimal tokens.  The repository provides no
formatter for `SemaphoreLimits` under `src`; the round-trip property of the
spec names this form. -/
def SemaphoreLimits.format (l : SemaphoreLimits) : List Char :=
  natDigits l.semmsl ++ ' ' :: (natDigits l.semmns ++ ' ' ::
    (natDigits l.semopm ++ ' ' :: natDigits l.semmni))

/-! ### Basic facts about decimal digit strings -/

theorem natDigits_ne_nil (n : Nat) : natDigits n ≠ [] := by
  unfold natDigits
  split
  · simp
  · simp

theorem isDigit_ofNat_add (m : Nat) (h : m < 10) :
    (Char.ofNat (48 + m)).isDigit = true := by
  interval_cases m <;> decide

theorem digitVal_ofNat_add (m : Nat) (h : m < 10) :
    digitVal (Char.ofNat (48 + m)) = m := by
  interval_cases m <;> decide

theorem natDigits_all_digit (n : Nat) : ∀ c ∈ natDigits n, c.isDigit = true := by
  induction n using natDigits.induct with
  | case1 n h =>
    rw [natDigits, dif_pos h]
    intro c hc
    rw [List.mem_singleton] at hc
    exact hc ▸ isDigit_ofNat_add n h
  | case2 n h ih =>
    rw [natDigits, dif_neg h]
    intro c hc
    rcases List.mem_append.mp hc with h1 | h1
    · exact ih c h1
    · rw [List.mem_singleton] at h1
      exact h1 ▸ isDigit_ofNat_add (n % 10) (Nat.mod_lt n (by omega))

theorem decimalValue_nil : decimalValue [] = 0 := rfl

theorem decimalValue_append_singleton (xs : List Char) (c : Char) :
    decimalValue (xs ++ [c]) = decimalValue xs * 10 + digitVal c := by
  unfold decimalValue
  rw [List.foldl_append]
  rfl

theorem decimalValue_natDigits (n : Nat) : decimalValue (natDigits n) = n := by
  induction n using natDigits.induct with
  | case1 n h =>
    rw [natDigits, dif_pos h]
    show decimalValue ([] ++ [Char.ofNat (48 + n)]) = n
    rw [decimalValue_append_singleton, decimalValue_nil, digitVal_ofNat_add n h]
    omega
  | case2 n h ih =>
    rw [natDigits, dif_neg h, decimalValue_append_singleton, ih,
      digitVal_ofNat_add (n % 10) (Nat.mod_lt n (by omega))]
    omega

theorem isDigit_ne_plus {c : Char} (h : c.isDigit = true) : c ≠ '+' := by
  intro hc
  subst hc
  exact absurd h (by decide)

theorem isDigit_ne_dot {c : Char} (h : c.isDigit = true) : c ≠ '.' := by
  intro hc
  subst hc
  exact absurd h (by decide)

theorem isDigit_not_ws {c : Char} (h : c.isDigit = true) :
    isAsciiWhitespace c = false := by
  have h48 : (48 : UInt32) ≤ c.val := by
    unfold Char.isDigit at h
    simp only [Bool.and_eq_true, decide_eq_true_eq, ge_iff_le] at h
    exact h.1
  unfold isAsciiWhitespace
  simp only [Bool.or_eq_false_iff, decide_eq_false_iff_not]
  refine ⟨⟨⟨⟨?_, ?_⟩, ?_⟩, ?_⟩, ?_⟩ <;>
    · intro hc
      subst hc
      exact absurd h48 (by decide)

theorem parseUnsigned_natDigits (bound n : Nat) (h : n < bound) :
    parseUnsigned bound (natDigits n) = some n := by
  obtain ⟨c, rest, hcons⟩ := List.exists_cons_of_ne_nil (natDigits_ne_nil n)
  have hdig : ∀ x ∈ natDigits n, x.isDigit = true := natDigits_all_digit n
  have hc : c.isDigit = true := hdig c (by rw [hcons]; exact List.mem_cons_self c rest)
  unfold parseUnsigned
  rw [hcons]
  simp only [if_neg (isDigit_ne_plus hc)]
  rw [← hcons]
  rw [if_neg (natDigits_ne_nil n)]
  rw [if_pos (List.all_eq_true.mpr fun x hx => hdig x hx)]
  rw [decimalValue_natDigits]
  rw [if_pos h]

/-! ### Truncation: `takeWhile` -/

theorem takeWhile_all_append (p : Char → Bool) (xs l : List Char)
    (h : ∀ x ∈ xs, p x = true) :
    List.takeWhile p (xs ++ l) = xs ++ List.takeWhile p l := by
  induction xs with
  | nil => rfl
  | cons c rest ih =>
    have hc : p c = true := h c (List.mem_cons_self c rest)
    simp only [List.cons_append, List.takeWhile_cons, hc, if_true]
    rw [ih fun x hx => h x (List.mem_cons_of_mem c hx)]

theorem takeWhile_all (p : Char → Bool) (xs : List Char)
    (h : ∀ x ∈ xs, p x = true) : List.takeWhile p xs = xs := by
  have := takeWhile_all_append p xs [] h
  simpa using this

theorem takeWhile_cons_false (p : Char → Bool) (c : Char) (l : List Char)
    (h : p c = false) : List.takeWhile p (c :: l) = [] := by
  simp [List.takeWhile_cons, h]

/-! ### `splitOnDot` -/

theorem splitOnDot_ne_nil (l : List Char) : splitOnDot l ≠ [] := by
  cases l with
  | nil => simp [splitOnDot]
  | cons c rest =>
    simp only [splitOnDot]
    split
    · simp
    · split <;> simp

theorem splitOnDot_no_dot (l : List Char) (h : '.' ∉ l) : splitOnDot l = [l] := by
  induction l with
  | nil => rfl
  | cons c rest ih =>
    have hc : c ≠ '.' := fun hc => h (hc ▸ List.mem_cons_self c rest)
    have hrest : '.' ∉ rest := fun hr => h (List.mem_cons_of_mem c hr)
    unfold splitOnDot
    rw [if_neg hc, ih hrest]

theorem splitOnDot_append_dot (xs ys : List Char) (h : '.' ∉ xs) :
    splitOnDot (xs ++ '.' :: ys) = xs :: splitOnDot ys := by
  induction xs with
  | nil => simp [splitOnDot]
  | cons c rest ih =>
    have hc : c ≠ '.' := fun hc => h (hc ▸ List.mem_cons_self c rest)
    have hrest : '.' ∉ rest := fun hr => h (List.mem_cons_of_mem c hr)
    rw [List.cons_append]
    simp only [splitOnDot]
    rw [if_neg hc, ih hrest]

/-! ### `splitWs` -/

theorem splitWsAux_no_ws_append (xs : List Char)
    (h : ∀ c ∈ xs, isAsciiWhitespace c = false) :
    ∀ (l acc : List Char), splitWsAux (xs ++ l) acc = splitWsAux l (xs.reverse ++ acc) := by
  induction xs with
  | nil => intro l acc; rfl
  | cons c rest ih =>
    intro l acc
    have hc : isAsciiWhitespace c = false := h c (List.mem_cons_self c rest)
    rw [List.cons_append]
    simp only [splitWsAux]
    rw [hc]
    simp only [Bool.false_eq_true, if_false]
    rw [ih (fun x hx => h x (List.mem_cons_of_mem c hx)) l (c :: acc)]
    simp

theorem splitWs_no_ws (xs : List Char) (hne : xs ≠ [])
    (h : ∀ c ∈ xs, isAsciiWhitespace c = false) : splitWs xs = [xs] := by
  have h1 := splitWsAux_no_ws_append xs h [] []
  rw [List.append_nil] at h1
  unfold splitWs
  rw [h1]
  simp only [splitWsAux]
  rw [List.append_nil, if_neg (by simpa using hne)]
  simp

theorem splitWs_append_ws (xs : List Char) (w : Char) (l : List Char)
    (hne : xs ≠ []) (h : ∀ c ∈ xs, isAsciiWhitespace c = false)
    (hw : isAsciiWhitespace w = true) :
    splitWs (xs ++ w :: l) = xs :: splitWs l := by
  unfold splitWs
  rw [splitWsAux_no_ws_append xs h (w :: l) [], List.append_nil]
  simp only [splitWsAux]
  rw [hw]
  simp only [if_true]
  rw [if_neg (by simpa using hne)]
  simp

theorem splitWs_cons_ws (w : Char) (s : List Char) (hw : isAsciiWhitespace w = true) :
    splitWs (w :: s) = splitWs s := by
  unfold splitWs
  simp only [splitWsAux]
  rw [hw]
  simp

theorem splitWsAux_append_trailing_ws (w : Char) (hw : isAsciiWhitespace w = true)
    (s : List Char) : ∀ acc, splitWsAux (s ++ [w]) acc = splitWsAux s acc := by
  induction s with
  | nil =>
    intro acc
    by_cases hacc : acc = []
    · subst hacc; simp [splitWsAux, hw]
    · simp [splitWsAux, hw, hacc]
  | cons c rest ih =>
    intro acc
    rw [List.cons_append]
    simp only [splitWsAux]
    by_cases hc : isAsciiWhitespace c = true
    · rw [hc]
      simp only [if_true]
      by_cases hacc : acc = [] <;> simp [hacc, ih]
    · rw [Bool.not_eq_true] at hc
      rw [hc]
      simp only [Bool.false_eq_true, if_false]
      exact ih (c :: acc)

theorem splitWsAux_ws_run (w v : Char) (hw : isAsciiWhitespace w = true)
    (hv : isAsciiWhitespace v = true) (s t : List Char) :
    ∀ acc, splitWsAux (s ++ w :: v :: t) acc = splitWsAux (s ++ w :: t) acc := by
  induction s with
  | nil =>
    intro acc
    simp only [List.nil_append]
    simp only [splitWsAux]
    rw [hw]
    simp only [if_true]
    by_cases hacc : acc = [] <;> simp [hacc, splitWsAux, hv]
  | cons c rest ih =>
    intro acc
    simp only [List.cons_append]
    simp only [splitWsAux]
    by_cases hc : isAsciiWhitespace c = true
    · rw [hc]
      simp only [if_true]
      by_cases hacc : acc = [] <;> simp [hacc, ih]
    · rw [Bool.not_eq_true] at hc
      rw [hc]
      simp only [Bool.false_eq_true, if_false]
      exact ih (c :: acc)

/-! ### Ordering characterizations -/

theorem version_cmp_lt_iff (x y : Version) :
    Version.cmp x y = Ordering.lt ↔
      (x.major < y.major ∨ (x.major = y.major ∧
        (x.minor < y.minor ∨ (x.minor = y.minor ∧ x.patch < y.patch)))) := by
  obtain ⟨a, b, c⟩ := x
  obtain ⟨d, e, f⟩ := y
  simp only [Version.cmp, cmpNat]
  split_ifs <;> simp_all

theorem version_cmp_eq_iff (x y : Version) :
    Version.cmp x y = Ordering.eq ↔ x = y := by
  obtain ⟨a, b, c⟩ := x
  obtain ⟨d, e, f⟩ := y
  simp only [Version.cmp, cmpNat, Version.mk.injEq]
  split_ifs <;> simp_all <;> omega

theorem version_cmp_gt_iff (x y : Version) :
    Version.cmp x y = Ordering.gt ↔
      (y.major < x.major ∨ (x.major = y.major ∧
        (y.minor < x.minor ∨ (x.minor = y.minor ∧ y.patch < x.patch)))) := by
  obtain ⟨a, b, c⟩ := x
  obtain ⟨d, e, f⟩ := y
  simp only [Version.cmp, cmpNat]
  split_ifs <;> simp_all <;> omega

/-! ### Case characterizations of `SemaphoreLimits.fromStr` -/

theorem sem_missing_general (s : List Char) (h : (splitWs s).length < 4) :
    SemaphoreLimits.fromStr s = Except.error (missingMsg (splitWs s).length) := by
  rcases hs : splitWs s with _ | ⟨t0, _ | ⟨t1, _ | ⟨t2, _ | ⟨t3, rest⟩⟩⟩⟩
  · simp [SemaphoreLimits.fromStr, hs, tokenAt, missingMsg, Except.bind]
  · simp [SemaphoreLimits.fromStr, hs, tokenAt, missingMsg, Except.bind]
  · simp [SemaphoreLimits.fromStr, hs, tokenAt, missingMsg, Except.bind]
  · simp [SemaphoreLimits.fromStr, hs, tokenAt, missingMsg, Except.bind]
  · rw [hs] at h
    simp at h
    omega

theorem sem_ok_general (s : List Char) (t0 t1 t2 t3 : List Char)
    (rest : List (List Char)) (a0 a1 a2 a3 : Nat)
    (hs : splitWs s = t0 :: t1 :: t2 :: t3 :: rest)
    (h0 : parseUnsigned (2 ^ 64) t0 = some a0)
    (h1 : parseUnsigned (2 ^ 64) t1 = some a1)
    (h2 : parseUnsigned (2 ^ 64) t2 = some a2)
    (h3 : parseUnsigned (2 ^ 64) t3 = some a3) :
    SemaphoreLimits.fromStr s =
      Except.ok { semmsl := a0, semmns := a1, semopm := a2, semmni := a3 } := by
  norm_num at h0 h1 h2 h3
  simp [SemaphoreLimits.fromStr, hs, tokenAt, parseField, h0, h1, h2, h3, Except.bind]

theorem sem_fail0_general (s : List Char) (t0 t1 t2 t3 : List Char)
    (rest : List (List Char))
    (hs : splitWs s = t0 :: t1 :: t2 :: t3 :: rest)
    (h0 : parseUnsigned (2 ^ 64) t0 = none) :
    SemaphoreLimits.fromStr s = Except.error "Failed to parse SEMMSL" := by
  norm_num at h0
  simp [SemaphoreLimits.fromStr, hs, tokenAt, parseField, h0, Except.bind]

theorem sem_fail1_general (s : List Char) (t0 t1 t2 t3 : List Char)
    (rest : List (List Char)) (a0 : Nat)
    (hs : splitWs s = t0 :: t1 :: t2 :: t3 :: rest)
    (h0 : parseUnsigned (2 ^ 64) t0 = some a0)
    (h1 : parseUnsigned (2 ^ 64) t1 = none) :
    SemaphoreLimits.fromStr s = Except.error "Failed to parse SEMMNS" := by
  norm_num at h0 h1
  simp [SemaphoreLimits.fromStr, hs, tokenAt, parseField, h0, h1, Except.bind]

theorem sem_fail2_general (s : List Char) (t0 t1 t2 t3 : List Char)
    (rest : List (List Char)) (a0 a1 : Nat)
    (hs : splitWs s = t0 :: t1 :: t2 :: t3 :: rest)
    (h0 : parseUnsigned (2 ^ 64) t0 = some a0)
    (h1 : parseUnsigned (2 ^ 64) t1 = some a1)
    (h2 : parseUnsigned (2 ^ 64) t2 = none) :
    SemaphoreLimits.fromStr s = Except.error "Failed to parse SEMOPM" := by
  norm_num at h0 h1 h2
  simp [SemaphoreLimits.fromStr, hs, tokenAt, parseField, h0, h1, h2, Except.bind]

theorem sem_fail3_general (s : List Char) (t0 t1 t2 t3 : List Char)
    (rest : List (List Char)) (a0 a1 a2 : Nat)
    (hs : splitWs s = t0 :: t1 :: t2 :: t3 :: rest)
    (h0 : parseUnsigned (2 ^ 64) t0 = some a0)
    (h1 : parseUnsigned (2 ^ 64) t1 = some a1)
    (h2 : parseUnsigned (2 ^ 64) t2 = some a2)
    (h3 : parseUnsigned (2 ^ 64) t3 = none) :
    SemaphoreLimits.fromStr s = Except.error "Failed to parse SEMMNI" := by
  norm_num at h0 h1 h2 h3
  simp [SemaphoreLimits.fromStr, hs, tokenAt, parseField, h0, h1, h2, h3, Except.bind]

/-! ### Case characterizations of `Version.fromStr` -/

theorem version_ok_general (s : List Char) (p0 p1 p2 : List Char)
    (rest : List (List Char)) (a b c : Nat)
    (hp : splitOnDot (s.takeWhile keepVersionChar) = p0 :: p1 :: p2 :: rest)
    (h0 : parseUnsigned (2 ^ 8) p0 = some a)
    (h1 : parseUnsigned (2 ^ 8) p1 = some b)
    (h2 : parseUnsigned (2 ^ 8) p2 = some c) :
    Version.fromStr s = Except.ok { major := a, minor := b, patch := c } := by
  norm_num at h0 h1 h2
  simp [Version.fromStr, hp, tokenAt, parseField, h0, h1, h2, Except.bind]

theorem version_missing_minor_general (s : List Char) (p0 : List Char)
    (hp : splitOnDot (s.takeWhile keepVersionChar) = [p0]) :
    Version.fromStr s = Except.error "Missing minor version component" := by
  simp [Version.fromStr, hp, tokenAt, Except.bind]

theorem version_missing_patch_general (s : List Char) (p0 p1 : List Char)
    (hp : splitOnDot (s.takeWhile keepVersionChar) = [p0, p1]) :
    Version.fromStr s = Except.error "Missing patch version component" := by
  simp [Version.fromStr, hp, tokenAt, Except.bind]

theorem version_fail_major_general (s : List Char) (p0 p1 p2 : List Char)
    (rest : List (List Char))
    (hp : splitOnDot (s.takeWhile keepVersionChar) = p0 :: p1 :: p2 :: rest)
    (h0 : parseUnsigned (2 ^ 8) p0 = none) :
    Version.fromStr s = Except.error "Failed to parse major version" := by
  norm_num at h0
  simp [Version.fromStr, hp, tokenAt, parseField, h0, Except.bind]

theorem version_fail_minor_general (s : List Char) (p0 p1 p2 : List Char)
    (rest : List (List Char)) (a : Nat)
    (hp : splitOnDot (s.takeWhile keepVersionChar) = p0 :: p1 :: p2 :: rest)
    (h0 : parseUnsigned (2 ^ 8) p0 = some a)
    (h1 : parseUnsigned (2 ^ 8) p1 = none) :
    Version.fromStr s = Except.error "Failed to parse minor version" := by
  norm_num at h0 h1
  simp [Version.fromStr, hp, tokenAt, parseField, h0, h1, Except.bind]

theorem version_fail_patch_general (s : List Char) (p0 p1 p2 : List Char)
    (rest : List (List Char)) (a b : Nat)
    (hp : splitOnDot (s.takeWhile keepVersionChar) = p0 :: p1 :: p2 :: rest)
    (h0 : parseUnsigned (2 ^ 8) p0 = some a)
    (h1 : parseUnsigned (2 ^ 8) p1 = some b)
    (h2 : parseUnsigned (2 ^ 8) p2 = none) :
    Version.fromStr s = Except.error "Failed to parse patch version" := by
  norm_num at h0 h1 h2
  simp [Version.fromStr, hp, tokenAt, parseField, h0, h1, h2, Except.bind]

/-! ### Formatting lemmas for the round-trip properties -/

theorem natDigits_no_dot (n : Nat) : '.' ∉ natDigits n :=
  fun h => absurd (natDigits_all_digit n '.' h) (by decide)

theorem natDigits_no_ws (n : Nat) :
    ∀ c ∈ natDigits n, isAsciiWhitespace c = false :=
  fun c hc => isDigit_not_ws (natDigits_all_digit n c hc)

theorem version_format_keep (v : Version) :
    ∀ c ∈ Version.format v, keepVersionChar c = true := by
  intro c hc
  unfold Version.format at hc
  simp only [List.mem_append, List.mem_cons] at hc
  have hdig : ∀ n, c ∈ natDigits n → keepVersionChar c = true := fun n hn => by
    unfold keepVersionChar
    rw [natDigits_all_digit n c hn, Bool.or_true]
  rcases hc with h | h | h | h | h
  · exact hdig _ h
  · subst h; decide
  · exact hdig _ h
  · subst h; decide
  · exact hdig _ h

theorem version_format_splitOnDot (v : Version) :
    splitOnDot (Version.format v) =
      [natDigits v.major, natDigits v.minor, natDigits v.patch] := by
  unfold Version.format
  rw [splitOnDot_append_dot _ _ (natDigits_no_dot v.major),
    splitOnDot_append_dot _ _ (natDigits_no_dot v.minor),
    splitOnDot_no_dot _ (natDigits_no_dot v.patch)]

/-- Round-trip core: parsing the canonical form of a valid version, followed
by an arbitrary suffix that is empty or starts with a non-digit non-dot
character, recovers the version. -/
theorem version_roundtrip_core (a b c : Nat)
    (ha : a < 2 ^ 8) (hb : b < 2 ^ 8) (hc : c < 2 ^ 8) (suffix : List Char)
    (hsuffix : suffix = [] ∨
      ∃ ch rest, suffix = ch :: rest ∧ ch ≠ '.' ∧ ch.isDigit = false) :
    Version.fromStr (Version.format (Version.mk a b c) ++ suffix) =
      Except.ok (Version.mk a b c) := by
  have hkeep := version_format_keep (Version.mk a b c)
  have htrunc : List.takeWhile keepVersionChar
      (Version.format (Version.mk a b c) ++ suffix) =
      Version.format (Version.mk a b c) := by
    rcases hsuffix with h | ⟨ch, rest, hsfx, hch1, hch2⟩
    · subst h
      rw [List.append_nil]
      exact takeWhile_all _ _ hkeep
    · subst hsfx
      rw [takeWhile_all_append _ _ _ hkeep,
        takeWhile_cons_false _ _ _ (by simp [keepVersionChar, hch1, hch2]),
        List.append_nil]
  refine version_ok_general _ (natDigits a) (natDigits b) (natDigits c) [] a b c
    ?_ ?_ ?_ ?_
  · rw [htrunc]
    exact version_format_splitOnDot (Version.mk a b c)
  · exact parseUnsigned_natDigits _ a ha
  · exact parseUnsigned_natDigits _ b hb
  · exact parseUnsigned_natDigits _ c hc

theorem sem_format_splitWs (l : SemaphoreLimits) :
    splitWs (SemaphoreLimits.format l) =
      [natDigits l.semmsl, natDigits l.semmns, natDigits l.semopm,
       natDigits l.semmni] := by
  unfold SemaphoreLimits.format
  rw [splitWs_append_ws _ _ _ (natDigits_ne_nil l.semmsl) (natDigits_no_ws l.semmsl)
      (by decide),
    splitWs_append_ws _ _ _ (natDigits_ne_nil l.semmns) (natDigits_no_ws l.semmns)
      (by decide),
    splitWs_append_ws _ _ _ (natDigits_ne_nil l.semopm) (natDigits_no_ws l.semopm)
      (by decide),
    splitWs_no_ws _ (natDigits_ne_nil l.semmni) (natDigits_no_ws l.semmni)]

example : Version.fromStr ("3.16.0-6-amd64".toList) =
    Except.ok { major := 3, minor := 16, patch := 0 } := by decide

example : Version.fromStr ("3.16.0".toList) =
    Except.ok { major := 3, minor := 16, patch := 0 } := by decide

example : Version.fromStr ("3.16.0_1".toList) =
    Except.ok { major := 3, minor := 16, patch := 0 } := by decide

example : SemaphoreLimits.fromStr ("32000\t1024000000\t500\t32000".toList) =
    Except.ok { semmsl := 32000, semmns := 1024000000, semopm := 500, semmni := 32000 } := by
  decide

example : SemaphoreLimits.fromStr ("1".toList) = Except.error "Missing SEMMNS" := by decide

example : SemaphoreLimits.fromStr ("1 string 500 3200".toList) =
    Except.error "Failed to parse SEMMNS" := by decide

example : SemaphoreLimits.fromStr ("+1 2 3 4".toList) =
    Except.ok { semmsl := 1, semmns := 2, semopm := 3, semmni := 4 } := by decide

/-! ### Claim theorems -/

/-- Claim C1: for every `(a,b,c)` in the `u8` range, `Version::from_str`
applied to the string `"a.b.c"` followed by any suffix whose first character
is neither an ASCII digit nor `.` — and also applied to the plain string
`"a.b.c"` — returns `Ok(Version { major: a, minor: b, patch: c })`. -/
theorem version_parse_format_suffix (a b c : Nat)
    (ha : a < 256) (hb : b < 256) (hc : c < 256) (suffix : List Char)
    (hsuffix : suffix = [] ∨
      ∃ ch rest, suffix = ch :: rest ∧ ch ≠ '.' ∧ ch.isDigit = false) :
    Version.fromStr (Version.format (Version.mk a b c) ++ suffix) =
      Except.ok (Version.mk a b c) :=
  version_roundtrip_core a b c (by norm_num; omega) (by norm_num; omega)
    (by norm_num; omega) suffix hsuffix

/-- Witness for C1 at `(3,16,0)` with the suffix `"-6-amd64"`. -/
theorem version_parse_format_suffix_witness :
    Version.fromStr (Version.format (Version.mk 3 16 0) ++ "-6-amd64".toList) =
      Except.ok (Version.mk 3 16 0) :=
  version_parse_format_suffix 3 16 0 (by norm_num) (by norm_num) (by norm_num)
    ("-6-amd64".toList)
    (Or.inr ⟨'-', "6-amd64".toList, by decide, by decide, by decide⟩)

/-- Claim C2: the ordering on `Version` is a strict total order consistent with
equality and lexicographic over `(major, minor, patch)`: exactly one of
`x < y`, `x = y`, `x > y` holds; `<` is transitive; `cmp` compares `major`
first, then `minor` on ties, then `patch`; and `x = y` iff all three fields
are equal. -/
theorem version_order_properties (x y z : Version) :
    ((Version.cmp x y = Ordering.lt ∧ x ≠ y ∧ Version.cmp x y ≠ Ordering.gt) ∨
     (Version.cmp x y ≠ Ordering.lt ∧ x = y ∧ Version.cmp x y ≠ Ordering.gt) ∨
     (Version.cmp x y ≠ Ordering.lt ∧ x ≠ y ∧ Version.cmp x y = Ordering.gt))
    ∧ (Version.cmp x y = Ordering.lt → Version.cmp y z = Ordering.lt →
        Version.cmp x z = Ordering.lt)
    ∧ (Version.cmp x y = Ordering.lt ↔
        (x.major < y.major ∨ (x.major = y.major ∧
          (x.minor < y.minor ∨ (x.minor = y.minor ∧ x.patch < y.patch)))))
    ∧ (Version.cmp x y = Ordering.eq ↔ x = y)
    ∧ (x = y ↔
        (x.major = y.major ∧ x.minor = y.minor ∧ x.patch = y.patch)) := by
  have hlt := version_cmp_lt_iff x y
  have hgt := version_cmp_gt_iff x y
  have heq := version_cmp_eq_iff x y
  have hltz := version_cmp_lt_iff y z
  have hltxz := version_cmp_lt_iff x z
  have hext : x = y ↔
      (x.major = y.major ∧ x.minor = y.minor ∧ x.patch = y.patch) := by
    obtain ⟨a, b, c⟩ := x
    obtain ⟨d, e, f⟩ := y
    simp [Version.mk.injEq]
  constructor
  · by_cases h1 : Version.cmp x y = Ordering.lt
    · exact Or.inl ⟨h1, by rw [ne_eq, hext]; rw [hlt] at h1; omega,
        by rw [ne_eq, hgt]; rw [hlt] at h1; omega⟩
    · by_cases h2 : x = y
      · refine Or.inr (Or.inl ⟨h1, h2, ?_⟩)
        rw [hext] at h2
        rw [ne_eq, hgt]
        omega
      · refine Or.inr (Or.inr ⟨h1, h2, ?_⟩)
        rw [hlt] at h1
        rw [hext] at h2
        rw [hgt]
        omega
  refine ⟨?_, hlt, heq, hext⟩
  intro h1 h2
  rw [hlt] at h1
  rw [hltz] at h2
  rw [hltxz]
  omega

/-- Witness for C2: transitivity applied at `1.2.3 < 1.2.4 < 1.3.0`. -/
theorem version_order_properties_witness :
    Version.cmp (Version.mk 1 2 3) (Version.mk 1 3 0) = Ordering.lt :=
  (version_order_properties (Version.mk 1 2 3) (Version.mk 1 2 4)
    (Version.mk 1 3 0)).2.1 (by decide) (by decide)

/-- Claim C3: parsing fewer than four whitespace-separated tokens into
`SemaphoreLimits` errors on the first missing position; in particular
`from_str("1")` returns `Err("Missing SEMMNS")`. -/
theorem sem_missing_field :
    (∀ s : List Char, (splitWs s).length < 4 →
        SemaphoreLimits.fromStr s =
          Except.error (missingMsg (splitWs s).length))
    ∧ SemaphoreLimits.fromStr ("1".toList) = Except.error "Missing SEMMNS" :=
  ⟨sem_missing_general, by decide⟩

/-- Witness for C3 at the three-token input `"9 8 7"`. -/
theorem sem_missing_field_witness :
    (splitWs ("9 8 7".toList)).length < 4 ∧
    SemaphoreLimits.fromStr ("9 8 7".toList) =
      Except.error (missingMsg (splitWs ("9 8 7".toList)).length) :=
  ⟨by decide, sem_missing_field.1 ("9 8 7".toList) (by decide)⟩

/-- Claim C4: with four tokens present, a token that is not a valid `u64`
yields the failed-to-parse error for its field (the first such field, tokens
being checked left to right after the presence checks); in particular
`from_str("1 string 500 3200")` returns `Err("Failed to parse SEMMNS")`. -/
theorem sem_malformed_field :
    (∀ (s : List Char) (t0 t1 t2 t3 : List Char) (rest : List (List Char)),
        splitWs s = t0 :: t1 :: t2 :: t3 :: rest →
        parseUnsigned (2 ^ 64) t0 = none →
        SemaphoreLimits.fromStr s = Except.error "Failed to parse SEMMSL")
    ∧ (∀ (s : List Char) (t0 t1 t2 t3 : List Char) (rest : List (List Char))
          (a0 : Nat),
        splitWs s = t0 :: t1 :: t2 :: t3 :: rest →
        parseUnsigned (2 ^ 64) t0 = some a0 →
        parseUnsigned (2 ^ 64) t1 = none →
        SemaphoreLimits.fromStr s = Except.error "Failed to parse SEMMNS")
    ∧ (∀ (s : List Char) (t0 t1 t2 t3 : List Char) (rest : List (List Char))
          (a0 a1 : Nat),
        splitWs s = t0 :: t1 :: t2 :: t3 :: rest →
        parseUnsigned (2 ^ 64) t0 = some a0 →
        parseUnsigned (2 ^ 64) t1 = some a1 →
        parseUnsigned (2 ^ 64) t2 = none →
        SemaphoreLimits.fromStr s = Except.error "Failed to parse SEMOPM")
    ∧ (∀ (s : List Char) (t0 t1 t2 t3 : List Char) (rest : List (List Char))
          (a0 a1 a2 : Nat),
        splitWs s = t0 :: t1 :: t2 :: t3 :: rest →
        parseUnsigned (2 ^ 64) t0 = some a0 →
        parseUnsigned (2 ^ 64) t1 = some a1 →
        parseUnsigned (2 ^ 64) t2 = some a2 →
        parseUnsigned (2 ^ 64) t3 = none →
        SemaphoreLimits.fromStr s = Except.error "Failed to parse SEMMNI")
    ∧ SemaphoreLimits.fromStr ("1 string 500 3200".toList) =
        Except.error "Failed to parse SEMMNS" :=
  ⟨sem_fail0_general, sem_fail1_general, sem_fail2_general, sem_fail3_general,
    by decide⟩

/-- Witness for C4 at `"a 1 2 3"`: the first token is malformed. -/
theorem sem_malformed_field_witness :
    splitWs ("a 1 2 3".toList) =
      ["a".toList, "1".toList, "2".toList, "3".toList] ∧
    parseUnsigned (2 ^ 64) ("a".toList) = none ∧
    SemaphoreLimits.fromStr ("a 1 2 3".toList) =
      Except.error "Failed to parse SEMMSL" :=
  ⟨by decide, by decide,
    sem_malformed_field.1 ("a 1 2 3".toList) ("a".toList) ("1".toList)
      ("2".toList) ("3".toList) [] (by decide) (by decide)⟩

/-- Claim C5: limits parsing splits on runs of ASCII whitespace — any
whitespace character (tab like space) is ignored in the lead, ignored in the
tail, and collapses with an adjacent whitespace character into one
separator; in particular the tab-separated input
`"32000\t1024000000\t500\t32000"` parses successfully. -/
theorem sem_whitespace_splitting :
    (∀ (w : Char) (s : List Char), isAsciiWhitespace w = true →
        splitWs (w :: s) = splitWs s)
    ∧ (∀ (w : Char) (s : List Char), isAsciiWhitespace w = true →
        splitWs (s ++ [w]) = splitWs s)
    ∧ (∀ (w v : Char) (s t : List Char), isAsciiWhitespace w = true →
        isAsciiWhitespace v = true →
        splitWs (s ++ w :: v :: t) = splitWs (s ++ w :: t))
    ∧ isAsciiWhitespace '\t' = true ∧ isAsciiWhitespace ' ' = true
    ∧ SemaphoreLimits.fromStr ("32000\t1024000000\t500\t32000".toList) =
        Except.ok
          { semmsl := 32000, semmns := 1024000000, semopm := 500,
            semmni := 32000 } := by
  refine ⟨fun w s hw => splitWs_cons_ws w s hw,
    fun w s hw => splitWsAux_append_trailing_ws w hw s [],
    fun w v s t hw hv => splitWsAux_ws_run w v hw hv s t [],
    by decide, by decide, by decide⟩

/-- Witness for C5: a leading tab is ignored on the input `"\t1 2"`. -/
theorem sem_whitespace_splitting_witness :
    isAsciiWhitespace '\t' = true ∧
    splitWs ('\t' :: "1 2".toList) = splitWs ("1 2".toList) :=
  ⟨by decide, sem_whitespace_splitting.1 '\t' ("1 2".toList) (by decide)⟩

/-- Counterexample to C6 as stated: on `"x 1 2"` the leftmost failing
field is the first one (`"x"` is present but malformed), yet the code
reports the missing fourth field, because all four presence checks run
before any token is parsed. -/
theorem sem_leftmost_error_counterexample :
    parseUnsigned (2 ^ 64) ("x".toList) = none ∧
    splitWs ("x 1 2".toList) = ["x".toList, "1".toList, "2".toList] ∧
    SemaphoreLimits.fromStr ("x 1 2".toList) =
      Except.error "Missing SEMMNI" ∧
    "Missing SEMMNI" ≠ "Failed to parse SEMMSL" := by decide

/-- Claim C6 (amended): validation happens in two left-to-right passes —
presence of all four fields first, then parseability of the four tokens —
and the reported error is the first failure in that order: the leftmost
missing field when fewer than four tokens are present, otherwise the
leftmost malformed token, otherwise success. -/
theorem sem_two_phase_first_error :
    (∀ s : List Char, (splitWs s).length < 4 →
        SemaphoreLimits.fromStr s =
          Except.error (missingMsg (splitWs s).length))
    ∧ (∀ (s : List Char) (t0 t1 t2 t3 : List Char) (rest : List (List Char)),
        splitWs s = t0 :: t1 :: t2 :: t3 :: rest →
        parseUnsigned (2 ^ 64) t0 = none →
        SemaphoreLimits.fromStr s = Except.error "Failed to parse SEMMSL")
    ∧ (∀ (s : List Char) (t0 t1 t2 t3 : List Char) (rest : List (List Char))
          (a0 : Nat),
        splitWs s = t0 :: t1 :: t2 :: t3 :: rest →
        parseUnsigned (2 ^ 64) t0 = some a0 →
        parseUnsigned (2 ^ 64) t1 = none →
        SemaphoreLimits.fromStr s = Except.error "Failed to parse SEMMNS")
    ∧ (∀ (s : List Char) (t0 t1 t2 t3 : List Char) (rest : List (List Char))
          (a0 a1 : Nat),
        splitWs s = t0 :: t1 :: t2 :: t3 :: rest →
        parseUnsigned (2 ^ 64) t0 = some a0 →
        parseUnsigned (2 ^ 64) t1 = some a1 →
        parseUnsigned (2 ^ 64) t2 = none →
        SemaphoreLimits.fromStr s = Except.error "Failed to parse SEMOPM")
    ∧ (∀ (s : List Char) (t0 t1 t2 t3 : List Char) (rest : List (List Char))
          (a0 a1 a2 : Nat),
        splitWs s = t0 :: t1 :: t2 :: t3 :: rest →
        parseUnsigned (2 ^ 64) t0 = some a0 →
        parseUnsigned (2 ^ 64) t1 = some a1 →
        parseUnsigned (2 ^ 64) t2 = some a2 →
        parseUnsigned (2 ^ 64) t3 = none →
        SemaphoreLimits.fromStr s = Except.error "Failed to parse SEMMNI")
    ∧ (∀ (s : List Char) (t0 t1 t2 t3 : List Char) (rest : List (List Char))
          (a0 a1 a2 a3 : Nat),
        splitWs s = t0 :: t1 :: t2 :: t3 :: rest →
        parseUnsigned (2 ^ 64) t0 = some a0 →
        parseUnsigned (2 ^ 64) t1 = some a1 →
        parseUnsigned (2 ^ 64) t2 = some a2 →
        parseUnsigned (2 ^ 64) t3 = some a3 →
        SemaphoreLimits.fromStr s =
          Except.ok
            { semmsl := a0, semmns := a1, semopm := a2, semmni := a3 }) :=
  ⟨sem_missing_general, sem_fail0_general, sem_fail1_general,
    sem_fail2_general, sem_fail3_general, sem_ok_general⟩

/-- Witness for the amended C6 at `"x 1 2"`: a missing later field wins
over an earlier malformed one. -/
theorem sem_two_phase_first_error_witness :
    (splitWs ("x 1 2".toList)).length < 4 ∧
    SemaphoreLimits.fromStr ("x 1 2".toList) =
      Except.error (missingMsg (splitWs ("x 1 2".toList)).length) :=
  ⟨by decide, sem_two_phase_first_error.1 ("x 1 2".toList) (by decide)⟩

/-- Claim C7: formatting a valid `Version` (fields in `u8` range) or a valid
`SemaphoreLimits` (fields in `u64` range) to its canonical text form and
re-parsing yields the original value. -/
theorem roundtrip_format_parse :
    (∀ v : Version, v.major < 2 ^ 8 → v.minor < 2 ^ 8 → v.patch < 2 ^ 8 →
        Version.fromStr (Version.format v) = Except.ok v)
    ∧ (∀ l : SemaphoreLimits, l.semmsl < 2 ^ 64 → l.semmns < 2 ^ 64 →
        l.semopm < 2 ^ 64 → l.semmni < 2 ^ 64 →
        SemaphoreLimits.fromStr (SemaphoreLimits.format l) = Except.ok l) := by
  constructor
  · intro v ha hb hc
    obtain ⟨a, b, c⟩ := v
    have h := version_roundtrip_core a b c ha hb hc [] (Or.inl rfl)
    rwa [List.append_nil] at h
  · intro l ha hb hc hd
    obtain ⟨a, b, c, d⟩ := l
    exact sem_ok_general _ (natDigits a) (natDigits b) (natDigits c)
      (natDigits d) [] a b c d (sem_format_splitWs (SemaphoreLimits.mk a b c d))
      (parseUnsigned_natDigits _ a ha) (parseUnsigned_natDigits _ b hb)
      (parseUnsigned_natDigits _ c hc) (parseUnsigned_natDigits _ d hd)

/-- Witness for C7 at `3.16.0` and `32000 1024000000 500 32000`. -/
theorem roundtrip_format_parse_witness :
    Version.fromStr (Version.format (Version.mk 3 16 0)) =
      Except.ok (Version.mk 3 16 0) ∧
    SemaphoreLimits.fromStr
        (SemaphoreLimits.format (SemaphoreLimits.mk 32000 1024000000 500 32000)) =
      Except.ok (SemaphoreLimits.mk 32000 1024000000 500 32000) :=
  ⟨roundtrip_format_parse.1 (Version.mk 3 16 0) (by norm_num) (by norm_num)
      (by norm_num),
    roundtrip_format_parse.2 (SemaphoreLimits.mk 32000 1024000000 500 32000)
      (by norm_num) (by norm_num) (by norm_num) (by norm_num)⟩

/-- Claim C8: version parsing requires at least three `.`-separated components
in the truncated prefix (one or two components error on the missing minor or
patch component) and ignores everything beyond the third: whenever the split
prefix has three or more components and the first three parse as `u8`, the
result is built from the first three alone; in particular
`from_str("1.2.3.4")` returns `Ok(Version { major: 1, minor: 2, patch: 3 })`. -/
theorem version_extra_components :
    (∀ (s : List Char) (p0 p1 p2 : List Char) (rest : List (List Char))
        (a b c : Nat),
        splitOnDot (s.takeWhile keepVersionChar) = p0 :: p1 :: p2 :: rest →
        parseUnsigned (2 ^ 8) p0 = some a →
        parseUnsigned (2 ^ 8) p1 = some b →
        parseUnsigned (2 ^ 8) p2 = some c →
        Version.fromStr s = Except.ok (Version.mk a b c))
    ∧ (∀ (s : List Char) (p0 : List Char),
        splitOnDot (s.takeWhile keepVersionChar) = [p0] →
        Version.fromStr s = Except.error "Missing minor version component")
    ∧ (∀ (s : List Char) (p0 p1 : List Char),
        splitOnDot (s.takeWhile keepVersionChar) = [p0, p1] →
        Version.fromStr s = Except.error "Missing patch version component")
    ∧ Version.fromStr ("1.2.3.4".toList) = Except.ok (Version.mk 1 2 3) :=
  ⟨version_ok_general, version_missing_minor_general,
    version_missing_patch_general, by decide⟩

/-- Witness for C8 at `"1.2.3.4"`: the fourth component is ignored. -/
theorem version_extra_components_witness :
    splitOnDot (("1.2.3.4".toList).takeWhile keepVersionChar) =
      [['1'], ['2'], ['3'], ['4']] ∧
    Version.fromStr ("1.2.3.4".toList) = Except.ok (Version.mk 1 2 3) :=
  ⟨by decide,
    version_extra_components.1 ("1.2.3.4".toList) ['1'] ['2'] ['3'] [['4']]
      1 2 3 (by decide) (by decide) (by decide) (by decide)⟩

/-- Claim C9: `Version::from_str` can never return the
`"Missing major version component"` error: splitting the (possibly empty)
truncated prefix on `.` always yields at least one piece, so the
missing-major branch is unreachable. -/
theorem version_no_missing_major (s : List Char) :
    ((splitOnDot (s.takeWhile keepVersionChar) = []) = False) ∧
    ((Version.fromStr s =
        Except.error "Missing major version component") = False) := by
  refine ⟨eq_false (splitOnDot_ne_nil _), eq_false ?_⟩
  intro h
  obtain ⟨q, qs, hq⟩ :=
    List.exists_cons_of_ne_nil (splitOnDot_ne_nil (s.takeWhile keepVersionChar))
  rcases qs with _ | ⟨q1, qs1⟩
  · rw [version_missing_minor_general s q hq] at h
    exact absurd h (by decide)
  rcases qs1 with _ | ⟨q2, qs2⟩
  · rw [version_missing_patch_general s q q1 hq] at h
    exact absurd h (by decide)
  rcases h0 : parseUnsigned (2 ^ 8) q with _ | a
  · rw [version_fail_major_general s q q1 q2 qs2 hq h0] at h
    exact absurd h (by decide)
  rcases h1 : parseUnsigned (2 ^ 8) q1 with _ | b
  · rw [version_fail_minor_general s q q1 q2 qs2 a hq h0 h1] at h
    exact absurd h (by decide)
  rcases h2 : parseUnsigned (2 ^ 8) q2 with _ | c
  · rw [version_fail_patch_general s q q1 q2 qs2 a b hq h0 h1 h2] at h
    exact absurd h (by decide)
  rw [version_ok_general s q q1 q2 qs2 a b c hq h0 h1 h2] at h
  simp at h

/-- Witness for C9 at the input `"foo"`, whose truncated prefix is empty. -/
theorem version_no_missing_major_witness :
    ((splitOnDot (("foo".toList).takeWhile keepVersionChar) = []) = False) ∧
    ((Version.fromStr ("foo".toList) =
        Except.error "Missing major version component") = False) :=
  version_no_missing_major ("foo".toList)

/-- Claim C10: `SemaphoreLimits::from_str` accepts a token with a leading `+`
sign, because token validity is standard Rust `u64` parsing; in particular
`from_str("+1 2 3 4")` succeeds with `semmsl == 1`. -/
theorem sem_accepts_plus_sign :
    parseUnsigned (2 ^ 64) ("+1".toList) = some 1 ∧
    SemaphoreLimits.fromStr ("+1 2 3 4".toList) =
      Except.ok { semmsl := 1, semmns := 2, semopm := 3, semmni := 4 } := by
  decide

end ProcfsKernel
